import Mathlib

/-!
# Skynet Risk Analyzer: `static/js/main.js`

A shallow embedding of the page script and of the part of the browser platform it
calls (string trimming, `parseInt`, the document tree, `getElementById`,
`querySelector`, the `textContent` and `className` setters), followed by the
properties of the script.

Conventions.
* JavaScript strings are Lean strings; every character the script inspects lies in
  the Basic Multilingual Plane, so code units and code points coincide there.
* A JavaScript number produced by `parseInt` is `Option Int`: `none` is `NaN`, and
  `some z` is the number nearest to the mathematical integer `z`.  The script only
  compares it with 80, 60, 40 and 20; rounding to the nearest double is monotone
  and fixes these four integers, so the comparison of the double agrees with the
  comparison of `z` (also when the double is an infinity).  The freedom an engine
  has to round a decimal run after its twentieth significant digit only concerns
  numbers of at least `10 ^ 20` and does not change a comparison either.
* The document is a tree; ids may repeat and labels may have child elements, as a
  browser allows.  Quirks mode, in which id selectors ignore case, is not modelled.
-/

namespace Skynet

/-! ## Strings -/

/-- The code points removed by `String.prototype.trim` and skipped by `parseInt`:
ECMAScript `WhiteSpace` (TAB, VT, FF, ZWNBSP and the Unicode space separators)
together with `LineTerminator` (LF, CR, LS, PS). -/
def isStrWhiteSpaceChar (c : Char) : Bool :=
  let n := c.toNat
  n == 0x09 || n == 0x0A || n == 0x0B || n == 0x0C || n == 0x0D || n == 0x20 ||
  n == 0xA0 || n == 0x1680 || (0x2000 ≤ n && n ≤ 0x200A) || n == 0x2028 ||
  n == 0x2029 || n == 0x202F || n == 0x205F || n == 0x3000 || n == 0xFEFF

/-- The list form of `trimStart`: drop the leading white space. -/
def trimStartChars (cs : List Char) : List Char :=
  cs.dropWhile isStrWhiteSpaceChar

/-- The list form of `trimEnd`: drop the trailing white space. -/
def trimEndChars (cs : List Char) : List Char :=
  (cs.reverse.dropWhile isStrWhiteSpaceChar).reverse

/-- JavaScript `String.prototype.trim`. -/
def trim (s : String) : String :=
  ⟨trimEndChars (trimStartChars s.data)⟩

/-- JavaScript `!s` for a string `s`: only the empty string is falsy. -/
def isFalsy (s : String) : Bool :=
  s.data.isEmpty

/-- The value of a character as a digit, for radices up to 36. -/
def digitValue (c : Char) : Option Nat :=
  let n := c.toNat
  if 48 ≤ n ∧ n ≤ 57 then some (n - 48)
  else if 97 ≤ n ∧ n ≤ 122 then some (n - 97 + 10)
  else if 65 ≤ n ∧ n ≤ 90 then some (n - 65 + 10)
  else none

/-- Whether the character is a digit of the radix `R`. -/
def isRadixDigit (R : Nat) (c : Char) : Bool :=
  match digitValue c with
  | some d => decide (d < R)
  | none => false

/-- The integer written by the digit run `Z` in radix `R`. -/
def mathInt (R : Nat) (Z : List Char) : Nat :=
  Z.foldl (fun acc c => acc * R + (digitValue c).getD 0) 0

/-- Steps 3 and 4 of `parseInt`: read and remove one leading sign. -/
def splitSign : List Char → Int × List Char
  | '-' :: rest => (-1, rest)
  | '+' :: rest => (1, rest)
  | cs => (1, cs)

/-- Steps 5 to 7 of `parseInt` called without a radix: the radix is 10 unless the
text starts with `0x` or `0X`, which is removed and selects radix 16. -/
def splitRadix : List Char → Nat × List Char
  | '0' :: 'x' :: rest => (16, rest)
  | '0' :: 'X' :: rest => (16, rest)
  | cs => (10, cs)

/-- JavaScript `parseInt(value)` on the characters of the text, without a radix
argument (ECMAScript 19.2.5): skip leading white space, read a sign, detect a hex
prefix, take the longest run of digits, and return `NaN` (`none`) when it is empty. -/
def parseIntChars (cs : List Char) : Option Int :=
  let S := trimStartChars cs
  let (sign, S1) := splitSign S
  let (R, S2) := splitRadix S1
  let Z := S2.takeWhile (isRadixDigit R)
  if Z.isEmpty then none else some (sign * (mathInt R Z : Int))

/-- JavaScript `parseInt(value)` for a string `value`. -/
def parseInt (value : String) : Option Int :=
  parseIntChars value.data

/-- JavaScript `numValue >= k` for a `parseInt` result: false on `NaN`. -/
def geNum (numValue : Option Int) (k : Int) : Bool :=
  match numValue with
  | some z => decide (k ≤ z)
  | none => false

/-- Whether the character is one of `0` to `9`. -/
def isDecimalDigit (c : Char) : Bool :=
  decide (48 ≤ c.toNat ∧ c.toNat ≤ 57)

/-- Whether the text, after leading white space and one optional sign, goes on with
a decimal digit. -/
def startsWithSignedDigit (value : String) : Bool :=
  match (splitSign (trimStartChars value.data)).2 with
  | c :: _ => isDecimalDigit c
  | [] => false

/-- The decimal text of an integer, as `String(v)` and an `input`'s value give it. -/
def decimalText (v : Int) : String :=
  toString v

/-! ## The document tree -/

/-- The data an element carries itself: its local name, its `id` (the empty string
when it has none), its `class` attribute, the `href` and `data-bs-toggle`
attributes when present, and the `value` property (present on form controls,
`undefined` on other elements). -/
structure Attrs where
  tag : String
  id : String
  className : String
  href : Option String
  dataBsToggle : Option String
  value : Option String
  deriving DecidableEq, Repr

/-- A sequence of sibling nodes, each element carrying the sequence of its children:
`element a children next` is an element followed by its later siblings `next`, and
`text data next` is a text node followed by its later siblings.  A document is the
sequence of the nodes below its root, so tree order is: the node, then its
children, then its later siblings. -/
inductive Dom where
  | nil
  | text (data : String) (next : Dom)
  | element (a : Attrs) (children : Dom) (next : Dom)
  deriving DecidableEq, Repr

/-- One move in the tree: to the first child, or to the next sibling. -/
inductive Step where
  | down
  | right
  deriving DecidableEq, Repr

/-- A handle on a node: the moves that lead to it from the first node. -/
abbrev Path := List Step

namespace Dom

/-- The element a handle refers to: its own data and its children. -/
def nodeAt : Dom → Path → Option (Attrs × Dom)
  | element a children _, [] => some (a, children)
  | element _ children _, Step.down :: p => nodeAt children p
  | element _ _ next, Step.right :: p => nodeAt next p
  | text _ next, Step.right :: p => nodeAt next p
  | _, _ => none

/-- Replace the element a handle refers to; other handles are not affected. -/
def modifyAt (f : Attrs → Dom → Attrs × Dom) : Dom → Path → Dom
  | element a children next, [] => element (f a children).1 (f a children).2 next
  | element a children next, Step.down :: p => element a (modifyAt f children p) next
  | element a children next, Step.right :: p => element a children (modifyAt f next p)
  | text data next, Step.right :: p => text data (modifyAt f next p)
  | d, _ => d

/-- The concatenated data of all text nodes of the sequence, in tree order. -/
def textData : Dom → String
  | nil => ""
  | text data next => data ++ textData next
  | element _ children next => textData children ++ textData next

/-- The concatenated data of the text nodes that are members of the sequence
themselves (not of those inside its elements). -/
def ownText : Dom → String
  | nil => ""
  | text data next => data ++ ownText next
  | element _ _ next => ownText next

/-- Whether the sequence holds text nodes only, at every depth. -/
def textOnly : Dom → Bool
  | nil => true
  | text _ next => textOnly next
  | element _ _ _ => false

/-- The first element in tree order whose `id` is `i`. -/
def findId (i : String) : Dom → Option Path
  | nil => none
  | text _ next => (findId i next).map (Step.right :: ·)
  | element a children next =>
    if a.id = i then some []
    else
      match findId i children with
      | some p => some (Step.down :: p)
      | none => (findId i next).map (Step.right :: ·)

/-- The elements, in tree order, whose own data satisfy `pred`. -/
def select (pred : Attrs → Bool) : Dom → List Path
  | nil => []
  | text _ next => (select pred next).map (Step.right :: ·)
  | element a children next =>
    (if pred a then [[]] else []) ++ (select pred children).map (Step.down :: ·)
      ++ (select pred next).map (Step.right :: ·)

/-- What an element shows of itself: its own data, the text it holds directly, and
whether it holds text only. -/
def view (n : Attrs × Dom) : Attrs × String × Bool :=
  (n.1, n.2.ownText, n.2.textOnly)

end Dom

/-- DOM `document.getElementById(i)`: the first element in tree order with that
`id`, or `null`; no element has the empty `id`. -/
def getElementById (doc : Dom) (i : String) : Option Path :=
  if i = "" then none else doc.findId i

/-- The children the `textContent` setter installs: a single text node, or nothing
for the empty string. -/
def textNodes (value : String) : Dom :=
  if value = "" then Dom.nil else Dom.text value Dom.nil

/-- DOM `el.textContent = value`: all children of the element are replaced. -/
def setTextContent (doc : Dom) (el : Path) (value : String) : Dom :=
  doc.modifyAt (fun a _ => (a, textNodes value)) el

/-- DOM `el.className = c`: the `class` attribute is overwritten. -/
def setClassName (doc : Dom) (el : Path) (c : String) : Dom :=
  doc.modifyAt (fun a children => ({ a with className := c }, children)) el

/-- DOM `el.textContent` read back: the text of all descendants. -/
def textContent (doc : Dom) (el : Path) : Option String :=
  (doc.nodeAt el).map (fun n => n.2.textData)

/-- DOM `el.className` read back. -/
def className (doc : Dom) (el : Path) : Option String :=
  (doc.nodeAt el).map (fun n => n.1.className)

/-- The own data of the element at a handle, `none` where there is no element. -/
def attrsAt (doc : Dom) (el : Path) : Option Attrs :=
  (doc.nodeAt el).map (fun n => n.1)

/-- The text held directly by the element at a handle. -/
def ownTextAt (doc : Dom) (el : Path) : Option String :=
  (doc.nodeAt el).map (fun n => n.2.ownText)

/-- DOM `el.value`: the current value of a form control, `undefined` (`none`) on
other elements. -/
def inputValue (doc : Dom) (el : Path) : Option String :=
  (doc.nodeAt el).bind (fun n => n.1.value)

/-! ## The range slider value updater -/

/-- The function `updateValue(name, value)` of `main.js`, as a transformer of the
document.  None of its steps can throw for string arguments. -/
def updateValue (doc : Dom) (name value : String) : Dom :=
  match getElementById doc (name ++ "Value") with
  | none => doc
  | some displayElement =>
    let doc1 := setTextContent doc displayElement value
    -- Color code based on risk
    let numValue := parseInt value
    if geNum numValue 80 then
      setClassName doc1 displayElement "risk-critical"
    else if geNum numValue 60 then
      setClassName doc1 displayElement "risk-high"
    else if geNum numValue 40 then
      setClassName doc1 displayElement "risk-moderate"
    else if geNum numValue 20 then
      setClassName doc1 displayElement "risk-low"
    else
      setClassName doc1 displayElement "risk-minimal"

/-- A `span` with the given `id`, class and children. -/
def span (i c : String) (children : Dom) : Attrs × Dom :=
  ({ tag := "span", id := i, className := c, href := none, dataBsToggle := none,
     value := none }, children)

/-- A small page: a heading and two slider labels. -/
def sampleDoc : Dom :=
  Dom.element (span "title" "h" Dom.nil).1 (Dom.text "Risk" Dom.nil)
    (Dom.element (span "autonomyValue" "badge old" Dom.nil).1 (Dom.text "50" Dom.nil)
      (Dom.element (span "powerValue" "" Dom.nil).1 Dom.nil Dom.nil))

/-! ## The page initializer and its handlers -/

/-- The exceptions the script can meet. -/
inductive JSError where
  | TypeError
  | ReferenceError
  | SyntaxError
  deriving DecidableEq, Repr

/-- The observable actions of the script other than writes to the document. -/
inductive Effect where
  | consoleLog (msg : String)
  | addEventListener (target : Path) (type : String)
  | preventDefault
  | scrollIntoView (target : Path) (behavior : String)
  | alert (msg : String)
  | focus (target : Path)
  | newTooltip (target : Path)
  deriving DecidableEq, Repr

/-- One run of a piece of script: the actions performed, in order, and the
exception that ended the run, if any. -/
structure Run where
  effects : List Effect
  error : Option JSError
  deriving DecidableEq, Repr

/-- The page the script runs in: the document, whether the global `bootstrap`
(with its `Tooltip` constructor) is defined, and the selector engine of the
browser for every selector other than a bare id selector. -/
structure Page where
  doc : Dom
  bootstrap : Bool
  selectorEngine : String → Except JSError (Option Path)

/-- ASCII letters and the underscore: the ASCII characters that can start a CSS
identifier. -/
def isIdentStart (c : Char) : Bool :=
  let n := c.toNat
  (65 ≤ n && n ≤ 90) || (97 ≤ n && n ≤ 122) || n == 95

/-- The ASCII characters of a CSS identifier: letters, digits, `_` and `-`. -/
def isIdentChar (c : Char) : Bool :=
  let n := c.toNat
  isIdentStart c || (48 ≤ n && n ≤ 57) || n == 45

/-- Whether the characters start a CSS identifier (CSS Syntax, 4.3.9), for text
without escapes. -/
def startsIdent : List Char → Bool
  | [] => false
  | c :: rest =>
    isIdentStart c ||
      (c == '-' && match rest with
        | [] => false
        | d :: _ => isIdentStart d || d == '-')

/-- DOM `document.querySelector(selectors)`.  A `#` followed by nothing is not a
selector and throws a `SyntaxError`; a `#` followed by a plain identifier selects
the first element with that `id`; every other selector is left to the engine of
the page. -/
def querySelector (page : Page) (selectors : String) : Except JSError (Option Path) :=
  match selectors.data with
  | '#' :: cs =>
    if cs.isEmpty then Except.error JSError.SyntaxError
    else if cs.all isIdentChar && startsIdent cs then Except.ok (page.doc.findId ⟨cs⟩)
    else page.selectorEngine selectors
  | _ => page.selectorEngine selectors

/-- DOM `el.getAttribute('href')`. -/
def getAttributeHref (doc : Dom) (el : Path) : Option String :=
  (doc.nodeAt el).bind (fun n => n.1.href)

/-- The `click` listener bound to each in-page anchor; `this` is the anchor. -/
def anchorClick (page : Page) (this : Path) : Run :=
  -- e.preventDefault();
  -- a missing attribute reads as `null`, which `querySelector` turns into text
  let selectors := (getAttributeHref page.doc this).getD "null"
  match querySelector page selectors with
  | Except.error err => ⟨[Effect.preventDefault], some err⟩
  | Except.ok none => ⟨[Effect.preventDefault], none⟩
  | Except.ok (some target) =>
    ⟨[Effect.preventDefault, Effect.scrollIntoView target "smooth"], none⟩

/-- The `submit` listener bound to the analyze form. -/
def submitHandler (page : Page) : Run :=
  match getElementById page.doc "name" with
  | none => ⟨[], some JSError.TypeError⟩ -- `null.value`
  | some nameInput =>
    match inputValue page.doc nameInput with
    | none => ⟨[], some JSError.TypeError⟩ -- `undefined.trim()`
    | some v =>
      if isFalsy (trim v) then
        ⟨[Effect.preventDefault, Effect.alert "Please enter an AI system name",
          Effect.focus nameInput], none⟩
      else ⟨[], none⟩

/-- The selector `a[href^="#"]`. -/
def isHashAnchor (a : Attrs) : Bool :=
  a.tag == "a" &&
    match a.href with
    | some h => h.data.head? == some '#'
    | none => false

/-- The selector `[data-bs-toggle="tooltip"]`. -/
def isTooltipTrigger (a : Attrs) : Bool :=
  a.dataBsToggle == some "tooltip"

/-- The `map` over the tooltip triggers: `new bootstrap.Tooltip(el)` for each in
turn; evaluating `bootstrap` throws a `ReferenceError` when it is not defined. -/
def makeTooltips (page : Page) : List Path → Run
  | [] => ⟨[], none⟩
  | tooltipTriggerEl :: rest =>
    if page.bootstrap then
      ⟨Effect.newTooltip tooltipTriggerEl :: (makeTooltips page rest).effects,
        (makeTooltips page rest).error⟩
    else ⟨[], some JSError.ReferenceError⟩

/-- The `DOMContentLoaded` listener of `main.js`. -/
def domContentLoaded (page : Page) : Run :=
  let log := [Effect.consoleLog "Skynet Risk Analyzer initialized"]
  -- Add smooth scrolling
  let scroll := (page.doc.select isHashAnchor).map
    (fun anchor => Effect.addEventListener anchor "click")
  -- Form validation
  let form :=
    match getElementById page.doc "analyzeForm" with
    | some analyzeForm => [Effect.addEventListener analyzeForm "submit"]
    | none => []
  -- Add tooltips
  let tooltipTriggerList := page.doc.select isTooltipTrigger
  let tips := makeTooltips page tooltipTriggerList
  ⟨log ++ scroll ++ form ++ tips.effects, tips.error⟩

/-- An element with every attribute given. -/
def mkElement (tag i : String) (href toggle value : Option String) : Attrs :=
  { tag := tag, id := i, className := "", href := href, dataBsToggle := toggle,
    value := value }

/-- A page with a bare `#` link, a link to the form, the analyze form with its name
input holding `v`, and one tooltip trigger. -/
def formDoc (v : String) : Dom :=
  Dom.element (mkElement "a" "" (some "#") none none) (Dom.text "Top" Dom.nil)
    (Dom.element (mkElement "a" "" (some "#analyzeForm") none none) Dom.nil
      (Dom.element (mkElement "form" "analyzeForm" none none none)
        (Dom.element (mkElement "input" "name" none none (some v)) Dom.nil Dom.nil)
        (Dom.element (mkElement "button" "" none (some "tooltip") none) Dom.nil Dom.nil)))

/-- The page of `formDoc` with the toolkit loaded. -/
def formPage (v : String) : Page :=
  { doc := formDoc v, bootstrap := true, selectorEngine := fun _ => Except.ok none }

/-! ## Vocabulary of the properties -/

/-- The five severity classes. -/
def severityClasses : List String :=
  ["risk-critical", "risk-high", "risk-moderate", "risk-low", "risk-minimal"]

/-- The class the threshold chain of `updateValue` ends in, as a function of the
parsed number. -/
def severityClass (numValue : Option Int) : String :=
  if geNum numValue 80 then "risk-critical"
  else if geNum numValue 60 then "risk-high"
  else if geNum numValue 40 then "risk-moderate"
  else if geNum numValue 20 then "risk-low"
  else "risk-minimal"

/-- What `updateValue` does to its label element: the class is overwritten and the
children are replaced by the text. -/
def relabel (value : String) (a : Attrs) (_ : Dom) : Attrs × Dom :=
  ({ a with className := severityClass (parseInt value) }, textNodes value)

/-- Whether the label of the control `name`, when the document has one, holds
text only (no child element). -/
def labelHoldsTextOnly (doc : Dom) (name : String) : Bool :=
  match getElementById doc (name ++ "Value") with
  | none => true
  | some el =>
    match doc.nodeAt el with
    | some n => n.2.textOnly
    | none => true

/-- A document in which the label of `a` contains an element that carries the `id`
of the label of `b`, followed by a second element with that `id`. -/
def nestedDoc : Dom :=
  Dom.element (span "aValue" "" Dom.nil).1
    (Dom.element (span "bValue" "" Dom.nil).1 Dom.nil Dom.nil)
    (Dom.element (span "bValue" "" Dom.nil).1 Dom.nil Dom.nil)

/-- The page of `formDoc` on which the toolkit did not load. -/
def noToolkitPage : Page :=
  { doc := formDoc "Skynet", bootstrap := false, selectorEngine := fun _ => Except.ok none }

/-- A page with the analyze form but without an element whose `id` is `name`. -/
def noNamePage : Page :=
  { doc := Dom.element (mkElement "form" "analyzeForm" none none none)
      (Dom.element (mkElement "input" "title" none none (some "Skynet")) Dom.nil Dom.nil)
      Dom.nil,
    bootstrap := true, selectorEngine := fun _ => Except.ok none }

/-! ## Facts about `parseInt` -/

theorem decimal_digitChar (d : Nat) (h : d < 10) :
    isDecimalDigit (Nat.digitChar d) = true ∧ digitValue (Nat.digitChar d) = some d := by
  interval_cases d <;> decide

theorem mathInt_snoc (R : Nat) (ds : List Char) (c : Char) :
    mathInt R (ds ++ [c]) = mathInt R ds * R + (digitValue c).getD 0 := by
  simp [mathInt, List.foldl_append]

/-- The accumulator of `Nat.toDigitsCore` is only appended to. -/
theorem toDigitsCore_acc (k n : Nat) (rest : List Char) :
    Nat.toDigitsCore 10 k n rest = Nat.toDigitsCore 10 k n [] ++ rest := by
  induction k generalizing n rest with
  | zero => simp [Nat.toDigitsCore]
  | succ k ih =>
    unfold Nat.toDigitsCore
    by_cases h0 : n / 10 = 0
    · simp [h0]
    · simp only [h0, if_false]
      rw [ih (n / 10) (Nat.digitChar (n % 10) :: rest), ih (n / 10) [Nat.digitChar (n % 10)]]
      simp

/-- One round of `Nat.toDigitsCore`: the last digit is written behind the digits of
the quotient. -/
theorem toDigitsCore_step (k n : Nat) :
    Nat.toDigitsCore 10 (k + 1) n []
      = if n / 10 = 0 then [Nat.digitChar (n % 10)]
        else Nat.toDigitsCore 10 k (n / 10) [] ++ [Nat.digitChar (n % 10)] := by
  conv_lhs => unfold Nat.toDigitsCore
  by_cases h0 : n / 10 = 0
  · simp [h0]
  · simp only [h0, if_false]
    exact toDigitsCore_acc k (n / 10) _

theorem toDigitsCore_ne_nil (k n : Nat) : Nat.toDigitsCore 10 (k + 1) n [] ≠ [] := by
  rw [toDigitsCore_step]
  split <;> simp

theorem toDigitsCore_all_decimal (k n : Nat) :
    (Nat.toDigitsCore 10 k n []).all isDecimalDigit = true := by
  induction k generalizing n with
  | zero => simp [Nat.toDigitsCore]
  | succ k ih =>
    have hd := (decimal_digitChar (n % 10) (Nat.mod_lt _ (by decide))).1
    rw [toDigitsCore_step]
    split
    · simpa using hd
    · simp only [List.all_append, ih (n / 10), Bool.true_and]
      simpa using hd

theorem toDigitsCore_value (k n : Nat) (hk : n < k) :
    mathInt 10 (Nat.toDigitsCore 10 k n []) = n := by
  induction k generalizing n with
  | zero => omega
  | succ k ih =>
    have hd := (decimal_digitChar (n % 10) (Nat.mod_lt _ (by decide))).2
    rw [toDigitsCore_step]
    split
    · rename_i h0
      simp only [mathInt, List.foldl_cons, List.foldl_nil, hd, Option.getD_some]
      omega
    · rename_i h0
      rw [mathInt_snoc, ih (n / 10) (by omega), hd, Option.getD_some]
      omega

/-- The decimal rendering of a natural number: a non-empty run of decimal digits
that writes the number. -/
theorem repr_data (n : Nat) :
    (Nat.repr n).data ≠ [] ∧ (Nat.repr n).data.all isDecimalDigit = true ∧
      mathInt 10 (Nat.repr n).data = n := by
  have hdata : (Nat.repr n).data = Nat.toDigitsCore 10 (n + 1) n [] := by
    simp [Nat.repr, Nat.toDigits, List.asString]
  rw [hdata]
  exact ⟨toDigitsCore_ne_nil n n, toDigitsCore_all_decimal (n + 1) n,
    toDigitsCore_value (n + 1) n (by omega)⟩

theorem decimal_char_facts (c : Char) (h : isDecimalDigit c = true) :
    isStrWhiteSpaceChar c = false ∧ c ≠ '-' ∧ c ≠ '+' ∧ c ≠ 'x' ∧ c ≠ 'X' ∧
      isRadixDigit 10 c = true := by
  have hb : 48 ≤ c.toNat ∧ c.toNat ≤ 57 := by simpa [isDecimalDigit] using h
  have hne : ∀ k : Char, (k.toNat < 48 ∨ 57 < k.toNat) → c ≠ k := by
    intro k hk hck
    subst hck
    omega
  refine ⟨?_, hne _ (by decide), hne _ (by decide), hne _ (by decide), hne _ (by decide), ?_⟩
  · simp only [isStrWhiteSpaceChar, Bool.or_eq_false_iff, Bool.and_eq_false_iff, beq_eq_false_iff_ne,
      decide_eq_false_iff_not]
    omega
  · have hv : digitValue c = some (c.toNat - 48) := by simp [digitValue, hb]
    simp only [isRadixDigit, hv, decide_eq_true_eq]
    omega

theorem splitSign_digit (c : Char) (rest : List Char) (h1 : c ≠ '-') (h2 : c ≠ '+') :
    splitSign (c :: rest) = (1, c :: rest) := by
  unfold splitSign
  split
  · rename_i heq
    simp at heq
    exact absurd heq.1 h1
  · rename_i heq
    simp at heq
    exact absurd heq.1 h2
  · rfl

theorem splitRadix_decimal (ds : List Char)
    (h : ∀ c ∈ ds, c ≠ 'x' ∧ c ≠ 'X') : splitRadix ds = (10, ds) := by
  unfold splitRadix
  split
  · exact absurd rfl (h 'x' (by simp)).1
  · exact absurd rfl (h 'X' (by simp)).2
  · rfl

/-- Reading back a run of decimal digits, with or without a minus sign. -/
theorem parseIntChars_run (ds : List Char) (hne : ds ≠ [])
    (hdig : ds.all isDecimalDigit = true) :
    parseIntChars ds = some (mathInt 10 ds : Int) ∧
      parseIntChars ('-' :: ds) = some (-(mathInt 10 ds : Int)) := by
  have hfacts : ∀ c ∈ ds, isStrWhiteSpaceChar c = false ∧ c ≠ '-' ∧ c ≠ '+' ∧ c ≠ 'x' ∧
      c ≠ 'X' ∧ isRadixDigit 10 c = true :=
    fun c hc => decimal_char_facts c (List.all_eq_true.mp hdig c hc)
  have hradix : splitRadix ds = (10, ds) :=
    splitRadix_decimal ds (fun c hc => ⟨(hfacts c hc).2.2.2.1, (hfacts c hc).2.2.2.2.1⟩)
  have htake : ds.takeWhile (isRadixDigit 10) = ds :=
    List.takeWhile_eq_self_iff.mpr (fun c hc => (hfacts c hc).2.2.2.2.2)
  obtain ⟨c, rest, rfl⟩ := List.exists_cons_of_ne_nil hne
  have hc := hfacts c (by simp)
  constructor
  · have htrim : trimStartChars (c :: rest) = c :: rest := by
      simp [trimStartChars, List.dropWhile, hc.1]
    simp only [parseIntChars, htrim, splitSign_digit c rest hc.2.1 hc.2.2.1, hradix, htake]
    simp
  · have htrim : trimStartChars ('-' :: c :: rest) = '-' :: c :: rest := by
      have : isStrWhiteSpaceChar '-' = false := by decide
      simp [trimStartChars, List.dropWhile, this]
    have hsign : splitSign ('-' :: c :: rest) = (-1, c :: rest) := rfl
    simp only [parseIntChars, htrim, hsign, hradix, htake]
    simp

/-- The text of an integer is read back by `parseInt` as that integer. -/
theorem parseInt_decimalText (v : Int) : parseInt (decimalText v) = some v := by
  unfold parseInt decimalText
  cases v with
  | ofNat n =>
    obtain ⟨hne, hdig, hval⟩ := repr_data n
    have hd : (toString (Int.ofNat n)).data = (Nat.repr n).data := rfl
    rw [hd, (parseIntChars_run _ hne hdig).1, hval]
    rfl
  | negSucc n =>
    obtain ⟨hne, hdig, hval⟩ := repr_data (n + 1)
    have hd : (toString (Int.negSucc n)).data = '-' :: (Nat.repr (n + 1)).data := by
      show ("-" ++ Nat.repr (n + 1)).data = '-' :: (Nat.repr (n + 1)).data
      simp
    rw [hd, (parseIntChars_run _ hne hdig).2, hval]
    rfl

theorem isRadixDigit_ten (c : Char) : isRadixDigit 10 c = isDecimalDigit c := by
  unfold isRadixDigit digitValue isDecimalDigit
  simp only
  split_ifs with h1 h2 h3
  · simp only [decide_eq_decide]
    constructor
    · intro _; exact h1
    · intro _; omega
  · simp only [decide_eq_decide]
    constructor
    · intro h; omega
    · intro h; exact absurd h h1
  · simp only [decide_eq_decide]
    constructor
    · intro h; omega
    · intro h; exact absurd h h1
  · simp [h1]

/-- Text that, after leading white space and one optional sign, does not go on with a
decimal digit is read as `NaN`. -/
theorem parseInt_none_of_no_digit (value : String)
    (h : startsWithSignedDigit value = false) : parseInt value = none := by
  unfold startsWithSignedDigit at h
  unfold parseInt parseIntChars
  simp only
  generalize (splitSign (trimStartChars value.data)).2 = S1 at h ⊢
  match S1, h with
  | [], _ => rfl
  | c :: rest, h =>
    simp only at h
    have hr : splitRadix (c :: rest) = (10, c :: rest) := by
      unfold splitRadix
      split
      · rename_i heq
        simp only [List.cons.injEq] at heq
        rw [heq.1] at h
        exact absurd h (by decide)
      · rename_i heq
        simp only [List.cons.injEq] at heq
        rw [heq.1] at h
        exact absurd h (by decide)
      · rfl
    simp [hr, List.takeWhile, isRadixDigit_ten, h]

/-! ## Facts about the document tree -/

namespace Dom

theorem modifyAt_modifyAt (f g : Attrs → Dom → Attrs × Dom) (doc : Dom) (p : Path) :
    modifyAt g (modifyAt f doc p) p
      = modifyAt (fun a children => g (f a children).1 (f a children).2) doc p := by
  induction doc generalizing p with
  | nil => cases p <;> rfl
  | text data next ih =>
    match p with
    | [] => rfl
    | Step.down :: q => rfl
    | Step.right :: q => simp [modifyAt, ih]
  | element a children next ihc ihn =>
    match p with
    | [] => rfl
    | Step.down :: q => simp [modifyAt, ihc]
    | Step.right :: q => simp [modifyAt, ihn]

theorem nodeAt_modifyAt_self (f : Attrs → Dom → Attrs × Dom) (doc : Dom) (p : Path) :
    nodeAt (modifyAt f doc p) p = (nodeAt doc p).map (fun n => f n.1 n.2) := by
  induction doc generalizing p with
  | nil => cases p <;> rfl
  | text data next ih =>
    match p with
    | [] => rfl
    | Step.down :: q => rfl
    | Step.right :: q => simp [modifyAt, nodeAt, ih]
  | element a children next ihc ihn =>
    match p with
    | [] => rfl
    | Step.down :: q => simp [modifyAt, nodeAt, ihc]
    | Step.right :: q => simp [modifyAt, nodeAt, ihn]

theorem findId_some_nodeAt (i : String) (doc : Dom) (p : Path)
    (h : findId i doc = some p) : ∃ n, nodeAt doc p = some n ∧ n.1.id = i := by
  induction doc generalizing p with
  | nil => simp [findId] at h
  | text data next ih =>
    simp only [findId, Option.map_eq_some'] at h
    obtain ⟨q, hq, rfl⟩ := h
    simpa [nodeAt] using ih q hq
  | element a children next ihc ihn =>
    simp only [findId] at h
    split at h
    · cases h
      exact ⟨(a, children), rfl, by assumption⟩
    · split at h
      · cases h
        rename_i q hq
        simpa [nodeAt] using ihc q hq
      · simp only [Option.map_eq_some'] at h
        obtain ⟨q, hq, rfl⟩ := h
        simpa [nodeAt] using ihn q hq

/-- Modifying an element without touching any `id` and without adding elements
cannot make an absent `id` appear. -/
theorem findId_modifyAt_none (f : Attrs → Dom → Attrs × Dom) (j : String)
    (hid : ∀ a children, (f a children).1.id = a.id)
    (hch : ∀ a children, findId j (f a children).2 = none)
    (doc : Dom) (p : Path) (h : findId j doc = none) :
    findId j (modifyAt f doc p) = none := by
  induction doc generalizing p with
  | nil => cases p <;> simp [modifyAt, findId]
  | text data next ih =>
    simp only [findId, Option.map_eq_none'] at h
    match p with
    | [] => simpa [modifyAt, findId] using h
    | Step.down :: q => simpa [modifyAt, findId] using h
    | Step.right :: q => simpa [modifyAt, findId] using ih q h
  | element a children next ihc ihn =>
    simp only [findId] at h
    split at h
    · cases h
    · rename_i hne
      split at h
      · cases h
      · rename_i hc
        simp only [Option.map_eq_none'] at h
        match p with
        | [] => simp [modifyAt, findId, hid, hne, hch, h]
        | Step.down :: q => simp [modifyAt, findId, hne, ihc q hc, h]
        | Step.right :: q => simp [modifyAt, findId, hne, hc, ihn q h]

/-- The element found under an `id` is still the one found after it has been
modified, as long as its `id` is kept. -/
theorem findId_modifyAt_self (f : Attrs → Dom → Attrs × Dom) (i : String)
    (hid : ∀ a children, (f a children).1.id = a.id)
    (doc : Dom) (p : Path) (h : findId i doc = some p) :
    findId i (modifyAt f doc p) = some p := by
  induction doc generalizing p with
  | nil => simp [findId] at h
  | text data next ih =>
    simp only [findId, Option.map_eq_some'] at h
    obtain ⟨q, hq, rfl⟩ := h
    simp [modifyAt, findId, ih q hq]
  | element a children next ihc ihn =>
    simp only [findId] at h
    split at h
    · cases h
      rename_i ha
      simp [modifyAt, findId, hid, ha]
    · rename_i hne
      split at h
      · cases h
        rename_i q hq
        simp [modifyAt, findId, hne, ihc q hq]
      · rename_i hc
        simp only [Option.map_eq_some'] at h
        obtain ⟨q, hq, rfl⟩ := h
        simp [modifyAt, findId, hne, hc, ihn q hq]

theorem nodeAt_textOnly (d : Dom) (h : d.textOnly = true) (q : Path) : nodeAt d q = none := by
  induction d generalizing q with
  | nil => cases q <;> rfl
  | text data next ih =>
    match q with
    | [] => rfl
    | Step.down :: q => rfl
    | Step.right :: q => simpa [nodeAt] using ih (by simpa [textOnly] using h) q
  | element a children next _ _ => simp [textOnly] at h

theorem findId_textOnly (j : String) (d : Dom) (h : d.textOnly = true) : findId j d = none := by
  induction d with
  | nil => rfl
  | text data next ih => simp [findId, ih (by simpa [textOnly] using h)]
  | element a children next _ _ => simp [textOnly] at h

theorem ownText_modifyAt (f : Attrs → Dom → Attrs × Dom) (doc : Dom) (p : Path) :
    ownText (modifyAt f doc p) = ownText doc := by
  induction doc generalizing p with
  | nil => cases p <;> rfl
  | text data next ih =>
    match p with
    | [] => rfl
    | Step.down :: q => rfl
    | Step.right :: q => simp [modifyAt, ownText, ih]
  | element a children next _ ihn =>
    match p with
    | [] => rfl
    | Step.down :: q => rfl
    | Step.right :: q => simp [modifyAt, ownText, ihn]

theorem textOnly_modifyAt (f : Attrs → Dom → Attrs × Dom) (doc : Dom) (p : Path) :
    textOnly (modifyAt f doc p) = textOnly doc := by
  induction doc generalizing p with
  | nil => cases p <;> rfl
  | text data next ih =>
    match p with
    | [] => rfl
    | Step.down :: q => rfl
    | Step.right :: q => simp [modifyAt, textOnly, ih]
  | element a children next _ _ =>
    match p with
    | [] => rfl
    | Step.down :: q => rfl
    | Step.right :: q => rfl

/-- Replacing the text-only content of one element by text-only content leaves the
view of every other element as it was, and makes no element appear or disappear. -/
theorem view_modifyAt_other (f : Attrs → Dom → Attrs × Dom)
    (hf : ∀ a children, (f a children).2.textOnly = true)
    (doc : Dom) (p q : Path) (hpq : q ≠ p)
    (hleaf : ∀ n, nodeAt doc p = some n → n.2.textOnly = true) :
    (nodeAt (modifyAt f doc p) q).map view = (nodeAt doc q).map view := by
  induction doc generalizing p q with
  | nil => cases p <;> rfl
  | text data next ih =>
    match p, q with
    | [], _ => rfl
    | Step.down :: _, _ => rfl
    | Step.right :: p, [] => rfl
    | Step.right :: p, Step.down :: q => rfl
    | Step.right :: p, Step.right :: q =>
      simp only [modifyAt, nodeAt]
      exact ih p q (by simpa using hpq) (by simpa [nodeAt] using hleaf)
  | element a children next ihc ihn =>
    match p, q with
    | [], [] => exact absurd rfl hpq
    | [], Step.down :: q =>
      simp only [modifyAt, nodeAt]
      rw [nodeAt_textOnly _ (hf a children), nodeAt_textOnly _ (hleaf (a, children) rfl)]
    | [], Step.right :: q => rfl
    | Step.down :: p, [] =>
      simp [modifyAt, nodeAt, view, ownText_modifyAt, textOnly_modifyAt]
    | Step.down :: p, Step.down :: q =>
      simp only [modifyAt, nodeAt]
      exact ihc p q (by simpa using hpq) (by simpa [nodeAt] using hleaf)
    | Step.down :: p, Step.right :: q => rfl
    | Step.right :: p, [] => rfl
    | Step.right :: p, Step.down :: q => rfl
    | Step.right :: p, Step.right :: q =>
      simp only [modifyAt, nodeAt]
      exact ihn p q (by simpa using hpq) (by simpa [nodeAt] using hleaf)

/-- Replacing the text-only content of the element found under `i` by text-only
content does not change which element is found under any `id`. -/
theorem findId_modifyAt_leaf (f : Attrs → Dom → Attrs × Dom) (i j : String)
    (hid : ∀ a children, (f a children).1.id = a.id)
    (hf : ∀ a children, (f a children).2.textOnly = true)
    (doc : Dom) (p : Path) (hp : findId i doc = some p)
    (hleaf : ∀ n, nodeAt doc p = some n → n.2.textOnly = true) :
    findId j (modifyAt f doc p) = findId j doc := by
  induction doc generalizing p with
  | nil => simp [findId] at hp
  | text data next ih =>
    simp only [findId, Option.map_eq_some'] at hp
    obtain ⟨q, hq, rfl⟩ := hp
    simp only [modifyAt, findId]
    rw [ih q hq (by simpa [nodeAt] using hleaf)]
  | element a children next ihc ihn =>
    simp only [findId] at hp
    split at hp
    · cases hp
      simp only [modifyAt, findId, hid]
      rw [findId_textOnly j _ (hf a children),
        findId_textOnly j _ (hleaf (a, children) rfl)]
    · split at hp
      · cases hp
        rename_i q hq
        simp only [modifyAt, findId]
        rw [ihc q hq (by simpa [nodeAt] using hleaf)]
      · simp only [Option.map_eq_some'] at hp
        obtain ⟨q, hq, rfl⟩ := hp
        simp only [modifyAt, findId]
        rw [ihn q hq (by simpa [nodeAt] using hleaf)]

/-- Modifications of two different elements that hold text only commute. -/
theorem modifyAt_comm (f g : Attrs → Dom → Attrs × Dom) (doc : Dom) (p q : Path)
    (hpq : p ≠ q)
    (hp : ∃ n, nodeAt doc p = some n ∧ n.2.textOnly = true)
    (hq : ∃ n, nodeAt doc q = some n ∧ n.2.textOnly = true) :
    modifyAt g (modifyAt f doc p) q = modifyAt f (modifyAt g doc q) p := by
  induction doc generalizing p q with
  | nil => cases p <;> cases q <;> rfl
  | text data next ih =>
    match p, q with
    | [], _ => simp [nodeAt] at hp
    | Step.down :: _, _ => simp [nodeAt] at hp
    | Step.right :: p, [] => simp [nodeAt] at hq
    | Step.right :: p, Step.down :: q => simp [nodeAt] at hq
    | Step.right :: p, Step.right :: q =>
      simp only [modifyAt]
      rw [ih p q (by simpa using hpq) (by simpa [nodeAt] using hp)
        (by simpa [nodeAt] using hq)]
  | element a children next ihc ihn =>
    match p, q with
    | [], [] => exact absurd rfl hpq
    | [], Step.down :: q =>
      obtain ⟨n, hn, hleaf⟩ := hp
      simp only [nodeAt, Option.some.injEq] at hn
      subst hn
      obtain ⟨m, hm, _⟩ := hq
      simp [nodeAt, nodeAt_textOnly _ hleaf] at hm
    | [], Step.right :: q => rfl
    | Step.down :: p, [] =>
      obtain ⟨n, hn, hleaf⟩ := hq
      simp only [nodeAt, Option.some.injEq] at hn
      subst hn
      obtain ⟨m, hm, _⟩ := hp
      simp [nodeAt, nodeAt_textOnly _ hleaf] at hm
    | Step.down :: p, Step.down :: q =>
      simp only [modifyAt]
      rw [ihc p q (by simpa using hpq) (by simpa [nodeAt] using hp)
        (by simpa [nodeAt] using hq)]
    | Step.down :: p, Step.right :: q => rfl
    | Step.right :: p, [] => rfl
    | Step.right :: p, Step.down :: q => rfl
    | Step.right :: p, Step.right :: q =>
      simp only [modifyAt]
      rw [ihn p q (by simpa using hpq) (by simpa [nodeAt] using hp)
        (by simpa [nodeAt] using hq)]

end Dom

/-! ## Facts about `updateValue` -/

theorem label_id_ne_empty (name : String) : name ++ "Value" ≠ "" := by
  intro h
  have hlen := congrArg String.length h
  simp only [String.length_append] at hlen
  have h5 : "Value".length = 5 := by decide
  have h0 : "".length = 0 := by decide
  omega

theorem getElementById_label (doc : Dom) (name : String) :
    getElementById doc (name ++ "Value") = doc.findId (name ++ "Value") := by
  simp [getElementById, label_id_ne_empty]

theorem setClassName_setTextContent (doc : Dom) (el : Path) (value c : String) :
    setClassName (setTextContent doc el value) el c
      = doc.modifyAt (fun a _ => ({ a with className := c }, textNodes value)) el := by
  simp [setClassName, setTextContent, Dom.modifyAt_modifyAt]

/-- The function `updateValue` in one step: the label, when there is one, is
relabelled. -/
theorem updateValue_eq (doc : Dom) (name value : String) :
    updateValue doc name value
      = match doc.findId (name ++ "Value") with
        | none => doc
        | some el => doc.modifyAt (relabel value) el := by
  unfold updateValue
  rw [getElementById_label]
  cases doc.findId (name ++ "Value") with
  | none => rfl
  | some el =>
    have hr : relabel value
        = fun a _ => ({ a with className := severityClass (parseInt value) },
            textNodes value) := rfl
    simp only [setClassName_setTextContent, hr, severityClass]
    split_ifs <;> rfl

theorem relabel_id (value : String) (a : Attrs) (children : Dom) :
    (relabel value a children).1.id = a.id := rfl

theorem findId_textNodes (j value : String) : Dom.findId j (textNodes value) = none := by
  unfold textNodes
  split <;> simp [Dom.findId]

theorem textData_textNodes (value : String) : (textNodes value).textData = value := by
  unfold textNodes
  split
  · rename_i h
    simp [Dom.textData, h]
  · simp [Dom.textData]

theorem severityClass_mem (numValue : Option Int) :
    severityClass numValue ∈ severityClasses := by
  unfold severityClass severityClasses
  split_ifs <;> simp

theorem updateValue_found (doc : Dom) (name value : String) (el : Path)
    (hel : getElementById doc (name ++ "Value") = some el) :
    updateValue doc name value = doc.modifyAt (relabel value) el := by
  rw [getElementById_label] at hel
  rw [updateValue_eq, hel]

theorem updateValue_absent (doc : Dom) (name value : String)
    (hel : getElementById doc (name ++ "Value") = none) :
    updateValue doc name value = doc := by
  rw [getElementById_label] at hel
  rw [updateValue_eq, hel]

/-- The label is still the label after the update. -/
theorem getElementById_updateValue (doc : Dom) (name value : String) (el : Path)
    (hel : getElementById doc (name ++ "Value") = some el) :
    getElementById (updateValue doc name value) (name ++ "Value") = some el := by
  rw [updateValue_found doc name value el hel, getElementById_label]
  rw [getElementById_label] at hel
  exact Dom.findId_modifyAt_self (relabel value) _ (relabel_id value) doc el hel

theorem nodeAt_updateValue (doc : Dom) (name value : String) (el : Path)
    (hel : getElementById doc (name ++ "Value") = some el) :
    ∃ a : Attrs, (updateValue doc name value).nodeAt el
      = some ({ a with className := severityClass (parseInt value) }, textNodes value) := by
  rw [updateValue_found doc name value el hel, Dom.nodeAt_modifyAt_self]
  rw [getElementById_label] at hel
  obtain ⟨n, hn, _⟩ := Dom.findId_some_nodeAt _ doc el hel
  exact ⟨n.1, by simp [hn, relabel]⟩

theorem className_updateValue (doc : Dom) (name value : String) (el : Path)
    (hel : getElementById doc (name ++ "Value") = some el) :
    className (updateValue doc name value) el = some (severityClass (parseInt value)) := by
  obtain ⟨a, ha⟩ := nodeAt_updateValue doc name value el hel
  simp [className, ha]

theorem textContent_updateValue (doc : Dom) (name value : String) (el : Path)
    (hel : getElementById doc (name ++ "Value") = some el) :
    textContent (updateValue doc name value) el = some value := by
  obtain ⟨a, ha⟩ := nodeAt_updateValue doc name value el hel
  simp [textContent, ha, textData_textNodes]

/-- A second update of the same label overwrites the first one entirely. -/
theorem updateValue_twice (doc : Dom) (name v1 v2 : String) :
    updateValue (updateValue doc name v1) name v2 = updateValue doc name v2 := by
  cases hel : getElementById doc (name ++ "Value") with
  | none => rw [updateValue_absent doc name v1 hel]
  | some el =>
    rw [updateValue_found _ name v2 el (getElementById_updateValue doc name v1 el hel),
      updateValue_found doc name v1 el hel, updateValue_found doc name v2 el hel,
      Dom.modifyAt_modifyAt]
    rfl

theorem severityClass_table (v : Int) :
    (severityClass (some v) = "risk-critical" ↔ 80 ≤ v) ∧
    (severityClass (some v) = "risk-high" ↔ 60 ≤ v ∧ v < 80) ∧
    (severityClass (some v) = "risk-moderate" ↔ 40 ≤ v ∧ v < 60) ∧
    (severityClass (some v) = "risk-low" ↔ 20 ≤ v ∧ v < 40) ∧
    (severityClass (some v) = "risk-minimal" ↔ v < 20) := by
  unfold severityClass geNum
  simp only [decide_eq_true_eq]
  split_ifs <;> simp <;> omega

theorem label_id_injective (a b : String) (h : a ++ "Value" = b ++ "Value") : a = b := by
  have hd := congrArg String.data h
  simp only [String.data_append] at hd
  exact String.ext (List.append_left_inj _ |>.mp hd)

theorem textOnly_textNodes (value : String) : (textNodes value).textOnly = true := by
  unfold textNodes
  split <;> rfl

theorem relabel_textOnly (value : String) (a : Attrs) (children : Dom) :
    (relabel value a children).2.textOnly = true :=
  textOnly_textNodes value

/-- A label that holds text only, as a fact about the element found. -/
theorem leaf_of_labelHoldsTextOnly (doc : Dom) (name : String) (el : Path)
    (h : labelHoldsTextOnly doc name = true)
    (hel : doc.findId (name ++ "Value") = some el) :
    ∃ n, doc.nodeAt el = some n ∧ n.2.textOnly = true := by
  obtain ⟨n, hn, _⟩ := Dom.findId_some_nodeAt _ doc el hel
  refine ⟨n, hn, ?_⟩
  simpa [labelHoldsTextOnly, getElementById_label, hel, hn] using h

/-- An update of a label that holds text only does not change which element is found
under any `id`. -/
theorem findId_updateValue_leaf (doc : Dom) (name value j : String)
    (h : labelHoldsTextOnly doc name = true) :
    (updateValue doc name value).findId j = doc.findId j := by
  rw [updateValue_eq]
  cases hel : doc.findId (name ++ "Value") with
  | none => rfl
  | some el =>
    obtain ⟨n, hn, hleaf⟩ := leaf_of_labelHoldsTextOnly doc name el h hel
    exact Dom.findId_modifyAt_leaf (relabel value) _ j (relabel_id value)
      (relabel_textOnly value) doc el hel
      (fun m hm => by rw [hn] at hm; cases hm; exact hleaf)

/-- Updates of two different labels that hold text only can be swapped. -/
theorem updateValue_comm (doc : Dom) (a b v w : String) (hab : a ≠ b)
    (ha : labelHoldsTextOnly doc a = true) (hb : labelHoldsTextOnly doc b = true) :
    updateValue (updateValue doc a v) b w = updateValue (updateValue doc b w) a v := by
  have hl : updateValue (updateValue doc a v) b w
      = match doc.findId (b ++ "Value") with
        | none => updateValue doc a v
        | some el => (updateValue doc a v).modifyAt (relabel w) el := by
    rw [updateValue_eq (updateValue doc a v), findId_updateValue_leaf doc a v _ ha]
  have hr : updateValue (updateValue doc b w) a v
      = match doc.findId (a ++ "Value") with
        | none => updateValue doc b w
        | some el => (updateValue doc b w).modifyAt (relabel v) el := by
    rw [updateValue_eq (updateValue doc b w), findId_updateValue_leaf doc b w _ hb]
  rw [hl, hr, updateValue_eq doc a v, updateValue_eq doc b w]
  cases hp : doc.findId (a ++ "Value") with
  | none => rfl
  | some p =>
    cases hq : doc.findId (b ++ "Value") with
    | none => rfl
    | some q =>
      have hne : p ≠ q := by
        intro hpq
        subst hpq
        obtain ⟨n, hn, hid⟩ := Dom.findId_some_nodeAt _ doc p hp
        obtain ⟨m, hm, hid2⟩ := Dom.findId_some_nodeAt _ doc p hq
        rw [hn] at hm
        cases hm
        exact hab (label_id_injective a b (hid.symm.trans hid2))
      exact Dom.modifyAt_comm (relabel v) (relabel w) doc p q hne
        (leaf_of_labelHoldsTextOnly doc a p ha hp)
        (leaf_of_labelHoldsTextOnly doc b q hb hq)

/-- An update of a label that holds text only leaves every other element as it was:
its own data and the text it holds directly. -/
theorem updateValue_frame (doc : Dom) (name value : String) (el q : Path)
    (h : labelHoldsTextOnly doc name = true)
    (hel : getElementById doc (name ++ "Value") = some el) (hq : q ≠ el) :
    attrsAt (updateValue doc name value) q = attrsAt doc q ∧
      ownTextAt (updateValue doc name value) q = ownTextAt doc q := by
  rw [updateValue_found doc name value el hel]
  rw [getElementById_label] at hel
  obtain ⟨n, hn, hleaf⟩ := leaf_of_labelHoldsTextOnly doc name el h hel
  have hv := Dom.view_modifyAt_other (relabel value) (relabel_textOnly value) doc el q hq
    (fun m hm => by rw [hn] at hm; cases hm; exact hleaf)
  constructor
  · have := congrArg (Option.map (fun x : Attrs × String × Bool => x.1)) hv
    simpa [attrsAt, Dom.view, Option.map_map, Function.comp_def] using this
  · have := congrArg (Option.map (fun x : Attrs × String × Bool => x.2.1)) hv
    simpa [ownTextAt, Dom.view, Option.map_map, Function.comp_def] using this

/-- An update keeps everything of the label but its class and its content. -/
theorem updateValue_label (doc : Dom) (name value : String) (el : Path)
    (hel : getElementById doc (name ++ "Value") = some el) :
    ∃ n, doc.nodeAt el = some n ∧ (updateValue doc name value).nodeAt el
      = some ({ n.1 with className := severityClass (parseInt value) }, textNodes value) := by
  rw [updateValue_found doc name value el hel, Dom.nodeAt_modifyAt_self]
  rw [getElementById_label] at hel
  obtain ⟨n, hn, _⟩ := Dom.findId_some_nodeAt _ doc el hel
  exact ⟨n, hn, by simp [hn, relabel]⟩

/-! ## Facts about the initializer and its handlers -/

theorem isFalsy_iff (s : String) : isFalsy s = true ↔ s = "" := by
  cases s with
  | mk data => cases data <;> simp [isFalsy, String.ext_iff]

theorem makeTooltips_error (page : Page) (l : List Path) :
    (makeTooltips page l).error
      = if page.bootstrap = true ∨ l = [] then none else some JSError.ReferenceError := by
  induction l with
  | nil => simp [makeTooltips]
  | cons el rest ih =>
    cases hb : page.bootstrap with
    | true => simp [makeTooltips, hb, ih]
    | false => simp [makeTooltips, hb]

theorem domContentLoaded_error (page : Page) :
    (domContentLoaded page).error
      = if page.bootstrap = true ∨ page.doc.select isTooltipTrigger = [] then none
        else some JSError.ReferenceError := by
  simp only [domContentLoaded, makeTooltips_error]

/-- The tooltip step of the initializer performs tooltip constructions only. -/
theorem makeTooltips_effects (page : Page) (l : List Path) :
    ∀ e ∈ (makeTooltips page l).effects, ∃ el, e = Effect.newTooltip el := by
  induction l with
  | nil => simp [makeTooltips]
  | cons el rest ih =>
    cases hb : page.bootstrap with
    | true =>
      intro e he
      simp only [makeTooltips, hb, if_true, List.mem_cons] at he
      rcases he with rfl | he
      · exact ⟨el, rfl⟩
      · exact ih e he
    | false => simp [makeTooltips, hb]

/-- A click on an in-page anchor whose fragment is a plain identifier: the default
action is prevented, and the first element with that `id`, when there is one, is
scrolled into view smoothly. -/
theorem anchorClick_ident (page : Page) (this : Path) (cs : List Char)
    (hhref : getAttributeHref page.doc this = some ⟨'#' :: cs⟩)
    (hne : cs ≠ []) (hall : cs.all isIdentChar = true) (hstart : startsIdent cs = true) :
    anchorClick page this
      = match page.doc.findId ⟨cs⟩ with
        | none => ⟨[Effect.preventDefault], none⟩
        | some target =>
          ⟨[Effect.preventDefault, Effect.scrollIntoView target "smooth"], none⟩ := by
  have he : cs.isEmpty = false := by cases cs <;> simp_all
  simp only [anchorClick, hhref, Option.getD_some, querySelector, he, hall, hstart]
  cases page.doc.findId ⟨cs⟩ <;> rfl

/-! ## Checks on concrete inputs -/

theorem parseInt_examples :
    parseInt "80" = some 80 ∧ parseInt "19" = some 19 ∧ parseInt "79.9" = some 79 ∧
      parseInt "  -12px" = some (-12) ∧ parseInt "0x50" = some 80 ∧
      parseInt " 85" = some 85 ∧ parseInt "" = none ∧ parseInt "abc" = none ∧
      parseInt "-" = none ∧ parseInt "0x" = none := by
  decide

theorem trim_examples :
    trim "   " = "" ∧ trim " Sky net " = "Sky net" ∧ trim "Skynet" = "Skynet" := by
  decide

theorem decimalText_examples :
    decimalText (-5) = "-5" ∧ decimalText 0 = "0" ∧ decimalText 100 = "100" := by
  decide

theorem sampleDoc_examples :
    getElementById sampleDoc "autonomyValue" = some [Step.right] ∧
      className sampleDoc [Step.right] = some "badge old" ∧
      className (updateValue sampleDoc "autonomy" "80") [Step.right]
        = some "risk-critical" ∧
      textContent (updateValue sampleDoc "autonomy" "79.9") [Step.right] = some "79.9" ∧
      updateValue sampleDoc "nothing" "79.9" = sampleDoc := by
  decide

theorem formPage_examples :
    (submitHandler (formPage " Skynet")).effects = [] ∧
      anchorClick (formPage "") [Step.right]
        = ⟨[Effect.preventDefault,
            Effect.scrollIntoView [Step.right, Step.right] "smooth"], none⟩ ∧
      (domContentLoaded (formPage "")).effects
        = [Effect.consoleLog "Skynet Risk Analyzer initialized",
           Effect.addEventListener [] "click",
           Effect.addEventListener [Step.right] "click",
           Effect.addEventListener [Step.right, Step.right] "submit",
           Effect.newTooltip [Step.right, Step.right, Step.right]] ∧
      (domContentLoaded (formPage "")).error = none := by
  decide

theorem startsWithSignedDigit_examples :
    startsWithSignedDigit "" = false ∧ startsWithSignedDigit "abc" = false ∧
      startsWithSignedDigit "-" = false ∧ startsWithSignedDigit "+x1" = false ∧
      startsWithSignedDigit ".5" = false ∧ startsWithSignedDigit " 85" = true ∧
      startsWithSignedDigit "-7" = true := by
  decide

/-- The classes at the boundaries of the table and outside the range 0 to 100. -/
theorem boundary_examples :
    severityClass (parseInt (decimalText 0)) = "risk-minimal" ∧
      severityClass (parseInt (decimalText 19)) = "risk-minimal" ∧
      severityClass (parseInt (decimalText 20)) = "risk-low" ∧
      severityClass (parseInt (decimalText 39)) = "risk-low" ∧
      severityClass (parseInt (decimalText 40)) = "risk-moderate" ∧
      severityClass (parseInt (decimalText 59)) = "risk-moderate" ∧
      severityClass (parseInt (decimalText 60)) = "risk-high" ∧
      severityClass (parseInt (decimalText 79)) = "risk-high" ∧
      severityClass (parseInt (decimalText 80)) = "risk-critical" ∧
      severityClass (parseInt (decimalText 100)) = "risk-critical" ∧
      severityClass (parseInt (decimalText (-5))) = "risk-minimal" ∧
      severityClass (parseInt (decimalText 150)) = "risk-critical" := by
  decide

/-! ## The properties of the script -/

/-- C1: for every integer `v` handed to `updateValue` as its decimal text, with the
label element present, the class of the label afterwards is one of the five
severity classes and follows the table: `risk-critical` iff `v ≥ 80`, `risk-high`
iff `60 ≤ v < 80`, `risk-moderate` iff `40 ≤ v < 60`, `risk-low` iff `20 ≤ v < 40`,
`risk-minimal` iff `v < 20`; every boundary belongs to the higher class. -/
theorem updateValue_class_follows_table (doc : Dom) (name : String) (el : Path) (v : Int)
    (hel : getElementById doc (name ++ "Value") = some el) :
    getElementById (updateValue doc name (decimalText v)) (name ++ "Value") = some el ∧
    ∃ c, className (updateValue doc name (decimalText v)) el = some c ∧
      c ∈ severityClasses ∧
      (c = "risk-critical" ↔ 80 ≤ v) ∧
      (c = "risk-high" ↔ 60 ≤ v ∧ v < 80) ∧
      (c = "risk-moderate" ↔ 40 ≤ v ∧ v < 60) ∧
      (c = "risk-low" ↔ 20 ≤ v ∧ v < 40) ∧
      (c = "risk-minimal" ↔ v < 20) := by
  refine ⟨getElementById_updateValue doc name _ el hel, severityClass (some v), ?_,
    severityClass_mem _, severityClass_table v⟩
  rw [className_updateValue doc name _ el hel, parseInt_decimalText]

theorem updateValue_class_follows_table_witness :
    getElementById sampleDoc ("autonomy" ++ "Value") = some [Step.right] ∧
    getElementById (updateValue sampleDoc "autonomy" (decimalText 80)) ("autonomy" ++ "Value")
      = some [Step.right] ∧
    ∃ c, className (updateValue sampleDoc "autonomy" (decimalText 80)) [Step.right] = some c ∧
      c ∈ severityClasses ∧
      (c = "risk-critical" ↔ (80 : Int) ≤ 80) ∧
      (c = "risk-high" ↔ (60 : Int) ≤ 80 ∧ (80 : Int) < 80) ∧
      (c = "risk-moderate" ↔ (40 : Int) ≤ 80 ∧ (80 : Int) < 60) ∧
      (c = "risk-low" ↔ (20 : Int) ≤ 80 ∧ (80 : Int) < 40) ∧
      (c = "risk-minimal" ↔ (80 : Int) < 20) :=
  ⟨by decide, updateValue_class_follows_table sampleDoc "autonomy" [Step.right] 80 (by decide)⟩

/-- C2: with the label element present, after `updateValue(name, value)` the text of
the label is the supplied value itself, and its class is the one the thresholds
give for the integer parsed from the value; `"80"` is shown as `"80"` with class
`risk-critical`, `"19"` as `"19"` with `risk-minimal`, and `"79.9"` stays `"79.9"`
while it is classified as the parsed integer 79, `risk-high`. -/
theorem updateValue_text_is_raw_value (doc : Dom) (name value : String) (el : Path)
    (hel : getElementById doc (name ++ "Value") = some el) :
    textContent (updateValue doc name value) el = some value ∧
    className (updateValue doc name value) el = some (severityClass (parseInt value)) ∧
    (parseInt "80" = some 80 ∧ severityClass (parseInt "80") = "risk-critical") ∧
    (parseInt "19" = some 19 ∧ severityClass (parseInt "19") = "risk-minimal") ∧
    (parseInt "79.9" = some 79 ∧ severityClass (parseInt "79.9") = "risk-high") :=
  ⟨textContent_updateValue doc name value el hel, className_updateValue doc name value el hel,
    by decide, by decide, by decide⟩

theorem updateValue_text_is_raw_value_witness :
    getElementById sampleDoc ("autonomy" ++ "Value") = some [Step.right] ∧
    textContent (updateValue sampleDoc "autonomy" "79.9") [Step.right] = some "79.9" ∧
    className (updateValue sampleDoc "autonomy" "79.9") [Step.right]
      = some (severityClass (parseInt "79.9")) ∧
    (parseInt "80" = some 80 ∧ severityClass (parseInt "80") = "risk-critical") ∧
    (parseInt "19" = some 19 ∧ severityClass (parseInt "19") = "risk-minimal") ∧
    (parseInt "79.9" = some 79 ∧ severityClass (parseInt "79.9") = "risk-high") :=
  ⟨by decide,
    updateValue_text_is_raw_value sampleDoc "autonomy" "79.9" [Step.right] (by decide)⟩

/-- C3: when the document has no element whose identifier is the name followed by
`Value`, `updateValue` leaves the whole document as it was (and, being a total
function of the document, it ends without an exception). -/
theorem updateValue_without_label (doc : Dom) (name value : String)
    (hel : getElementById doc (name ++ "Value") = none) :
    updateValue doc name value = doc :=
  updateValue_absent doc name value hel

theorem updateValue_without_label_witness :
    getElementById sampleDoc ("nothing" ++ "Value") = none ∧
    updateValue sampleDoc "nothing" "85" = sampleDoc :=
  ⟨by decide, updateValue_without_label sampleDoc "nothing" "85" (by decide)⟩

/-- C4: on a page with the analyze form and its name input, the initializer binds the
submit handler to the form, and the handler cancels the submission exactly when the
value of the name input is empty after trimming; then it shows the one message
`Please enter an AI system name` and focuses the name input, and otherwise it does
nothing at all.  Three spaces are blank, `Skynet` is not. -/
theorem submit_cancelled_iff_blank (page : Page) (analyzeForm nameInput : Path)
    (v : String)
    (hform : getElementById page.doc "analyzeForm" = some analyzeForm)
    (hname : getElementById page.doc "name" = some nameInput)
    (hval : inputValue page.doc nameInput = some v) :
    Effect.addEventListener analyzeForm "submit" ∈ (domContentLoaded page).effects ∧
    (submitHandler page).error = none ∧
    (Effect.preventDefault ∈ (submitHandler page).effects ↔ trim v = "") ∧
    (trim v = "" → (submitHandler page).effects
      = [Effect.preventDefault, Effect.alert "Please enter an AI system name",
         Effect.focus nameInput]) ∧
    (trim v ≠ "" → (submitHandler page).effects = []) ∧
    trim "   " = "" ∧ trim "Skynet" ≠ "" := by
  refine ⟨by simp [domContentLoaded, hform], ?_, ?_, ?_, ?_, by decide, by decide⟩
  · by_cases hb : trim v = ""
    · simp [submitHandler, hname, hval, (isFalsy_iff _).mpr hb]
    · simp [submitHandler, hname, hval, mt (isFalsy_iff _).mp hb]
  · by_cases hb : trim v = ""
    · have hf := (isFalsy_iff (trim v)).mpr hb
      simp only [submitHandler, hname, hval, hf, if_true]
      simp [hb]
    · have hf := mt (isFalsy_iff (trim v)).mp hb
      simp only [submitHandler, hname, hval, hf, if_false]
      simp [hb]
  · intro hb
    simp [submitHandler, hname, hval, (isFalsy_iff _).mpr hb]
  · intro hb
    simp [submitHandler, hname, hval, mt (isFalsy_iff _).mp hb]

theorem submit_cancelled_iff_blank_witness :
    getElementById (formPage "   ").doc "analyzeForm" = some [Step.right, Step.right] ∧
    getElementById (formPage "   ").doc "name" = some [Step.right, Step.right, Step.down] ∧
    inputValue (formPage "   ").doc [Step.right, Step.right, Step.down] = some "   " ∧
    Effect.addEventListener [Step.right, Step.right] "submit"
      ∈ (domContentLoaded (formPage "   ")).effects ∧
    (submitHandler (formPage "   ")).error = none ∧
    (Effect.preventDefault ∈ (submitHandler (formPage "   ")).effects ↔ trim "   " = "") ∧
    (trim "   " = "" → (submitHandler (formPage "   ")).effects
      = [Effect.preventDefault, Effect.alert "Please enter an AI system name",
         Effect.focus [Step.right, Step.right, Step.down]]) ∧
    (trim "   " ≠ "" → (submitHandler (formPage "   ")).effects = []) ∧
    trim "   " = "" ∧ trim "Skynet" ≠ "" :=
  ⟨by decide, by decide, by decide,
    submit_cancelled_iff_blank (formPage "   ") [Step.right, Step.right]
      [Step.right, Step.right, Step.down] "   " (by decide) (by decide) (by decide)⟩

/-- C5: whatever the label element looked like before, two updates of the same name
with values `v1` and then `v2` give the document that the single update with `v2`
gives, and the class of the label is then the one severity class of `v2`. -/
theorem updateValue_replaces_class (doc : Dom) (name v1 v2 : String) (el : Path)
    (hel : getElementById doc (name ++ "Value") = some el) :
    updateValue (updateValue doc name v1) name v2 = updateValue doc name v2 ∧
    className (updateValue (updateValue doc name v1) name v2) el
      = some (severityClass (parseInt v2)) ∧
    severityClass (parseInt v2) ∈ severityClasses := by
  refine ⟨updateValue_twice doc name v1 v2, ?_, severityClass_mem _⟩
  rw [updateValue_twice]
  exact className_updateValue doc name v2 el hel

theorem updateValue_replaces_class_witness :
    getElementById sampleDoc ("autonomy" ++ "Value") = some [Step.right] ∧
    updateValue (updateValue sampleDoc "autonomy" "85") "autonomy" "30"
      = updateValue sampleDoc "autonomy" "30" ∧
    className (updateValue (updateValue sampleDoc "autonomy" "85") "autonomy" "30")
      [Step.right] = some (severityClass (parseInt "30")) ∧
    severityClass (parseInt "30") ∈ severityClasses :=
  ⟨by decide, updateValue_replaces_class sampleDoc "autonomy" "85" "30" [Step.right] (by decide)⟩

/-- C6: `updateValue` is idempotent: for every document, name and value, calling it
twice in a row leaves the document as calling it once does. -/
theorem updateValue_idempotent (doc : Dom) (name value : String) :
    updateValue (updateValue doc name value) name value = updateValue doc name value :=
  updateValue_twice doc name value value

/-- C7, at the failing input: a click on an anchor whose `href` is the bare `#`
prevents the default action and then ends in a `SyntaxError`, because `#` alone is
not a selector; the handler does not end silently. -/
theorem anchorClick_bare_hash_throws (page : Page) (this : Path)
    (hhref : getAttributeHref page.doc this = some "#") :
    anchorClick page this = ⟨[Effect.preventDefault], some JSError.SyntaxError⟩ := by
  simp [anchorClick, hhref, querySelector]

theorem anchorClick_bare_hash_throws_witness :
    [] ∈ (formPage "Skynet").doc.select isHashAnchor ∧
    getAttributeHref (formPage "Skynet").doc [] = some "#" ∧
    anchorClick (formPage "Skynet") [] = ⟨[Effect.preventDefault], some JSError.SyntaxError⟩ :=
  ⟨by decide, by decide, anchorClick_bare_hash_throws (formPage "Skynet") [] (by decide)⟩

/-- C8 as stated fails: with a tooltip trigger on the page and the toolkit missing the
initializer ends in a `ReferenceError`, and with the analyze form present but no
element `name` the submit handler ends in a `TypeError`. -/
theorem silent_degradation_fails :
    (noToolkitPage.doc.select isTooltipTrigger ≠ [] ∧ noToolkitPage.bootstrap = false ∧
      (domContentLoaded noToolkitPage).error = some JSError.ReferenceError) ∧
    (getElementById noNamePage.doc "analyzeForm" = some [] ∧
      getElementById noNamePage.doc "name" = none ∧
      submitHandler noNamePage = ⟨[], some JSError.TypeError⟩) := by
  decide

/-- C8, amended: the initializer skips what has no element to act on (no click
handler without an in-page anchor, no submit handler without the analyze form, no
tooltip without a tooltip trigger) and ends without an exception exactly when the
toolkit is present or the page has no tooltip trigger; otherwise it ends in a
`ReferenceError`, after the bindings for scrolling and validation are in place. -/
theorem domContentLoaded_degradation (page : Page) :
    ((domContentLoaded page).error = none
      ↔ page.bootstrap = true ∨ page.doc.select isTooltipTrigger = []) ∧
    ((domContentLoaded page).error ≠ none
      → (domContentLoaded page).error = some JSError.ReferenceError) ∧
    (page.doc.select isHashAnchor = [] →
      ∀ t, Effect.addEventListener t "click" ∉ (domContentLoaded page).effects) ∧
    (getElementById page.doc "analyzeForm" = none →
      ∀ t, Effect.addEventListener t "submit" ∉ (domContentLoaded page).effects) ∧
    (page.doc.select isTooltipTrigger = [] →
      ∀ t, Effect.newTooltip t ∉ (domContentLoaded page).effects) ∧
    (∀ anchor ∈ page.doc.select isHashAnchor,
      Effect.addEventListener anchor "click" ∈ (domContentLoaded page).effects) ∧
    (∀ form, getElementById page.doc "analyzeForm" = some form →
      Effect.addEventListener form "submit" ∈ (domContentLoaded page).effects) := by
  have hnew : ∀ t ty, Effect.addEventListener t ty
      ∉ (makeTooltips page (page.doc.select isTooltipTrigger)).effects := by
    intro t ty hmem
    obtain ⟨el, hel⟩ := makeTooltips_effects page _ _ hmem
    cases hel
  refine ⟨?_, ?_, ?_, ?_, ?_, ?_, ?_⟩
  · rw [domContentLoaded_error]
    split_ifs with h <;> simp [h]
  · rw [domContentLoaded_error]
    split_ifs with h <;> simp
  · intro h t
    cases hf : getElementById page.doc "analyzeForm" <;>
      simp [domContentLoaded, h, hf, hnew]
  · intro h t
    simp [domContentLoaded, h, hnew]
  · intro h t
    cases hf : getElementById page.doc "analyzeForm" <;>
      simp [domContentLoaded, h, hf, makeTooltips]
  · intro anchor ha
    simp only [domContentLoaded, List.mem_append, List.mem_map]
    exact Or.inl (Or.inl (Or.inr ⟨anchor, ha, rfl⟩))
  · intro form hf
    simp [domContentLoaded, hf]

theorem domContentLoaded_degradation_witness :
    ((domContentLoaded noNamePage).error = none
      ↔ noNamePage.bootstrap = true ∨ noNamePage.doc.select isTooltipTrigger = []) ∧
    ((domContentLoaded noNamePage).error ≠ none
      → (domContentLoaded noNamePage).error = some JSError.ReferenceError) ∧
    (noNamePage.doc.select isHashAnchor = [] →
      ∀ t, Effect.addEventListener t "click" ∉ (domContentLoaded noNamePage).effects) ∧
    (getElementById noNamePage.doc "analyzeForm" = none →
      ∀ t, Effect.addEventListener t "submit" ∉ (domContentLoaded noNamePage).effects) ∧
    (noNamePage.doc.select isTooltipTrigger = [] →
      ∀ t, Effect.newTooltip t ∉ (domContentLoaded noNamePage).effects) ∧
    (∀ anchor ∈ noNamePage.doc.select isHashAnchor,
      Effect.addEventListener anchor "click" ∈ (domContentLoaded noNamePage).effects) ∧
    (∀ form, getElementById noNamePage.doc "analyzeForm" = some form →
      Effect.addEventListener form "submit" ∈ (domContentLoaded noNamePage).effects) :=
  domContentLoaded_degradation noNamePage

/-- C9 as stated fails: in `nestedDoc` the label of `a` contains an element, so the
update of `a` removes an element other than the label; that element carries the
`id` of the label of `b`, which occurs a second time, so the two orders of
updating `a` and `b` end in different documents. -/
theorem updateValue_order_matters_when_nested :
    "a" ≠ "b" ∧
    updateValue (updateValue nestedDoc "a" "1") "b" "2"
      ≠ updateValue (updateValue nestedDoc "b" "2") "a" "1" ∧
    getElementById nestedDoc "aValue" = some [] ∧
    (attrsAt nestedDoc [Step.down]).isSome = true ∧
    attrsAt (updateValue nestedDoc "a" "1") [Step.down] = none := by
  decide

/-- C9, amended: when the labels of two distinct names `a` and `b` hold text only
(no child element), updating `a` then `b` gives the same document as updating `b`
then `a`, and each update changes only its own label, of which it replaces the
class and the text: every other element keeps its own data and the text it holds,
and no element appears or disappears. -/
theorem updateValue_order_independent (doc : Dom) (a b v w : String) (hab : a ≠ b)
    (ha : labelHoldsTextOnly doc a = true) (hb : labelHoldsTextOnly doc b = true) :
    updateValue (updateValue doc a v) b w = updateValue (updateValue doc b w) a v ∧
    (∀ el, getElementById doc (a ++ "Value") = some el →
      (∃ n, doc.nodeAt el = some n ∧ (updateValue doc a v).nodeAt el
        = some ({ n.1 with className := severityClass (parseInt v) }, textNodes v)) ∧
      ∀ q, q ≠ el → attrsAt (updateValue doc a v) q = attrsAt doc q ∧
        ownTextAt (updateValue doc a v) q = ownTextAt doc q) ∧
    (∀ el, getElementById doc (b ++ "Value") = some el →
      (∃ n, doc.nodeAt el = some n ∧ (updateValue doc b w).nodeAt el
        = some ({ n.1 with className := severityClass (parseInt w) }, textNodes w)) ∧
      ∀ q, q ≠ el → attrsAt (updateValue doc b w) q = attrsAt doc q ∧
        ownTextAt (updateValue doc b w) q = ownTextAt doc q) :=
  ⟨updateValue_comm doc a b v w hab ha hb,
    fun el hel => ⟨updateValue_label doc a v el hel,
      fun q hq => updateValue_frame doc a v el q ha hel hq⟩,
    fun el hel => ⟨updateValue_label doc b w el hel,
      fun q hq => updateValue_frame doc b w el q hb hel hq⟩⟩

theorem updateValue_order_independent_witness :
    "autonomy" ≠ "power" ∧ labelHoldsTextOnly sampleDoc "autonomy" = true ∧
    labelHoldsTextOnly sampleDoc "power" = true ∧
    updateValue (updateValue sampleDoc "autonomy" "85") "power" "30"
      = updateValue (updateValue sampleDoc "power" "30") "autonomy" "85" :=
  ⟨by decide, by decide, by decide,
    (updateValue_order_independent sampleDoc "autonomy" "power" "85" "30"
      (by decide) (by decide) (by decide)).1⟩

/-- C10: with the label element present, every value gets one of the five severity
classes, and a value from which `parseInt` reads no integer gets `risk-minimal`;
the empty string and `abc` are such values, and so is every text that, after
leading white space and one optional sign, does not go on with a decimal digit. -/
theorem updateValue_unparseable_is_minimal (doc : Dom) (name value : String) (el : Path)
    (hel : getElementById doc (name ++ "Value") = some el)
    (hnan : parseInt value = none) :
    className (updateValue doc name value) el = some "risk-minimal" ∧
    (∀ value2, ∃ c, c ∈ severityClasses ∧
      className (updateValue doc name value2) el = some c) ∧
    (∀ value2, startsWithSignedDigit value2 = false →
      className (updateValue doc name value2) el = some "risk-minimal") ∧
    parseInt "" = none ∧ parseInt "abc" = none := by
  refine ⟨?_, fun value2 => ⟨_, severityClass_mem _,
    className_updateValue doc name value2 el hel⟩, ?_, by decide, by decide⟩
  · rw [className_updateValue doc name value el hel, hnan]
    rfl
  · intro value2 h2
    rw [className_updateValue doc name value2 el hel, parseInt_none_of_no_digit value2 h2]
    rfl

theorem updateValue_unparseable_is_minimal_witness :
    getElementById sampleDoc ("autonomy" ++ "Value") = some [Step.right] ∧
    parseInt "abc" = none ∧
    className (updateValue sampleDoc "autonomy" "abc") [Step.right] = some "risk-minimal" :=
  ⟨by decide, by decide,
    (updateValue_unparseable_is_minimal sampleDoc "autonomy" "abc" [Step.right]
      (by decide) (by decide)).1⟩

end Skynet
